import Mathlib

/-!
Verification of the Employee-Feedback-System core logic.

The definitions below are a shallow embedding of the two "core" computations
of the repository:

* `statsAggregator` — the department-statistics computation of
  `GET /api/feedbacks` in `Server/server.js` (lines 102–167);
* `filteredPeriods` / `availablePeriods` — the availability filter of the
  client component `AvailableFeedbacks` (lines 40–44 and 82–84);
* `postFeedback` — the feedback-submission write of `POST /api/feedbacks`
  in `Server/server.js` (lines 833–895).

JavaScript numbers are modelled as `Int` for ratings and `ℚ` for averages
(the computed averages are exact rationals of small numerators).  The JS
`Map` used for per-question grouping is modelled as an association list in
insertion order, which is exactly the iteration order a JS `Map` guarantees.
-/

namespace FeedbackSystem

/-- An embedded question/rating pair as parsed from the `questions` CLOB of
a feedback row (`{id, text, rating, comment?}` in the stored JSON). -/
structure FQuestion where
  qid : String
  text : String
  rating : Int
  comment : Option String
  deriving Repr, DecidableEq

/-- A processed feedback record, the shape built in `server.js` lines 88–98
from a `feedbacks` table row (the parsed CLOB becomes `questions`). -/
structure Feedback where
  id : String
  userId : String
  userName : String
  userEmail : String
  userDepartment : String
  targetDepartment : String
  questions : List FQuestion
  additionalComment : Option String
  deriving Repr, DecidableEq

/-- Per-question statistics entry of the response (`server.js` 143–147). -/
structure QuestionStat where
  questionId : String
  questionText : String
  averageRating : ℚ
  deriving Repr, DecidableEq

/-- Per-department statistics entry of the response (`server.js` 111–116
and 161–166). -/
structure DeptStat where
  department : String
  averageRating : ℚ
  totalFeedbacks : Nat
  questionStats : List QuestionStat
  deriving Repr, DecidableEq

/-- The fixed department list hard-coded in `server.js` lines 103–105. -/
def departments : List String :=
  ["IT", "Accounts", "Material", "HR", "Production",
   "Refinery Engg", "CGPP engg", "Civil", "Mechanical Engg",
   "Electrical Engg", "Instrument", "Technical", "WCM", "Safety"]

/-- Accumulator entry of the `questionMap` (`server.js` 127–137): one JS
`Map` value `{questionId, questionText, totalRating, count}`. -/
structure QAcc where
  questionId : String
  questionText : String
  totalRating : Int
  count : Nat
  deriving Repr, DecidableEq

/-- One iteration of the inner `forEach` filling `questionMap`
(`server.js` 126–138): a fresh entry (initialised to totals 0 and then
immediately incremented) is appended when the id is new — JS `Map`
preserves insertion order — otherwise the existing entry for the id is
updated in place. -/
def insertQ (acc : List QAcc) (q : FQuestion) : List QAcc :=
  if acc.any (fun s => s.questionId = q.qid) then
    acc.map (fun s =>
      if s.questionId = q.qid then
        { s with totalRating := s.totalRating + q.rating, count := s.count + 1 }
      else s)
  else
    acc ++ [⟨q.qid, q.text, q.rating, 1⟩]

/-- The nested `forEach` over a department's feedbacks and their questions
that fills `questionMap` (`server.js` 125–139). -/
def questionMapOf (dfbs : List Feedback) : List QAcc :=
  dfbs.foldl (fun acc fb => fb.questions.foldl insertQ acc) []

/-- The per-entry average step (`server.js` 142–148). -/
def qaccToStat (s : QAcc) : QuestionStat :=
  ⟨s.questionId, s.questionText, if s.count > 0 then (s.totalRating : ℚ) / (s.count : ℚ) else 0⟩

/-- The `totalRating` accumulation of `server.js` lines 151–159. -/
def deptTotalRating (dfbs : List Feedback) : Int :=
  dfbs.foldl (fun t fb => fb.questions.foldl (fun t q => t + q.rating) t) 0

/-- The `totalQuestions` accumulation of `server.js` lines 152–159. -/
def deptTotalQuestions (dfbs : List Feedback) : Nat :=
  dfbs.foldl (fun n fb => fb.questions.foldl (fun n _ => n + 1) n) 0

/-- One iteration of the `departments.forEach` loop (`server.js` 107–167):
the statistics entry pushed for department `d`. -/
def departmentStat (fbs : List Feedback) (d : String) : DeptStat :=
  let departmentFeedbacks := fbs.filter (fun f => f.targetDepartment = d)
  if departmentFeedbacks.length = 0 then
    ⟨d, 0, 0, []⟩
  else
    ⟨d,
     if deptTotalQuestions departmentFeedbacks > 0 then
       (deptTotalRating departmentFeedbacks : ℚ) /
         (deptTotalQuestions departmentFeedbacks : ℚ)
     else 0,
     departmentFeedbacks.length,
     (questionMapOf departmentFeedbacks).map qaccToStat⟩

/-- The whole `departmentStats` array built by `GET /api/feedbacks`
(`server.js` 102–167): the `forEach` pushes exactly one entry per fixed
department, in the fixed order. -/
def statsAggregator (fbs : List Feedback) : List DeptStat :=
  departments.map (departmentStat fbs)

/-- A feedback period as the client receives it (`FeedbackPeriod`); dates
are modelled as integer timestamps. -/
structure Period where
  id : String
  department : String
  startDate : Int
  endDate : Int
  active : Bool
  deriving Repr, DecidableEq

/-- First availability stage (`AvailableFeedbacks`, lines 40–44): drop the
periods of the requesting user's own department. -/
def filteredPeriods (periods : List Period) (userDepartment : String) : List Period :=
  periods.filter (fun p => p.department ≠ userDepartment)

/-- Second availability stage (`AvailableFeedbacks`, lines 82–84): drop the
periods whose department the user has already submitted feedback for. -/
def availablePeriods (fps : List Period) (submittedDepartments : List String) : List Period :=
  fps.filter (fun p => ¬ submittedDepartments.contains p.department)

/-- The composed availability filter: the list the client actually renders
(`availablePeriods` applied to `filteredPeriods`). -/
def availabilityFilter (periods : List Period) (userDepartment : String)
    (submittedDepartments : List String) : List Period :=
  availablePeriods (filteredPeriods periods userDepartment) submittedDepartments

/- Specification-side helpers used in theorem statements. -/

/-- The feedbacks targeting department `d` (`server.js` line 108). -/
def deptFeedbacks (fbs : List Feedback) (d : String) : List Feedback :=
  fbs.filter (fun f => f.targetDepartment = d)

/-- All embedded question/rating pairs of a list of feedbacks, in order. -/
def deptQuestions (dfbs : List Feedback) : List FQuestion :=
  dfbs.foldr (fun fb r => fb.questions ++ r) []

/-- Sum of all ratings of a list of feedbacks. -/
def ratingSum (dfbs : List Feedback) : Int :=
  ((deptQuestions dfbs).map (fun q => q.rating)).sum

/-- Number of ratings (question entries) of a list of feedbacks. -/
def ratingCount (dfbs : List Feedback) : Nat :=
  (deptQuestions dfbs).length

/- Per-question grouping: specification-side helpers. -/

/-- Sum of the ratings carried by the questions with identifier `i`. -/
def qTotal (i : String) (qs : List FQuestion) : Int :=
  ((qs.filter (fun q => q.qid = i)).map (fun q => q.rating)).sum

/-- Number of questions with identifier `i`. -/
def qCount (i : String) (qs : List FQuestion) : Nat :=
  (qs.filter (fun q => q.qid = i)).length

/-- The identifiers in insertion order of first encounter. -/
def firstOccurrences (ids : List String) : List String :=
  ids.foldl (fun acc i => if i ∈ acc then acc else acc ++ [i]) []

/-- The identifiers of the accumulated map entries, in map order. -/
def qidsOf (acc : List QAcc) : List String :=
  acc.map (fun s => s.questionId)

/-- Total rating recorded in the map for identifier `i` (0 when absent). -/
def findTotal (i : String) (acc : List QAcc) : Int :=
  match acc.find? (fun s => s.questionId = i) with
  | some s => s.totalRating
  | none => 0

/-- Count recorded in the map for identifier `i` (0 when absent). -/
def findCount (i : String) (acc : List QAcc) : Nat :=
  match acc.find? (fun s => s.questionId = i) with
  | some s => s.count
  | none => 0

/- The raw row shape of the GET handler and the submission write path. -/

/-- A raw `feedbacks` table row as the `GET /api/feedbacks` handler sees
it: `questionsData` models the outcome of reading and JSON-parsing the
`questions` CLOB — `none` when the CLOB is null or unparseable. -/
structure FeedbackRow where
  id : String
  userId : String
  userName : String
  userEmail : String
  userDepartment : String
  targetDepartment : String
  questionsData : Option (List FQuestion)
  additionalComment : Option String
  deriving Repr, DecidableEq

/-- Row processing of `server.js` lines 64–99: when the questions CLOB is
missing or unparseable the catch block swallows the error and the record
keeps `questions = []`; all other fields are copied. -/
def processRow (r : FeedbackRow) : Feedback :=
  ⟨r.id, r.userId, r.userName, r.userEmail, r.userDepartment, r.targetDepartment,
   match r.questionsData with
   | some qs => qs
   | none => [],
   r.additionalComment⟩

/-- The request body of `POST /api/feedbacks` (`server.js` 837–845). -/
structure FeedbackRequest where
  userId : String
  userName : String
  userEmail : String
  userDepartment : String
  targetDepartment : String
  questions : List FQuestion
  additionalComment : Option String
  deriving Repr, DecidableEq

/-- A stored `feedback_questions` row (`server.js` 875–890). -/
structure FeedbackQuestionRow where
  feedbackId : String
  text : String
  rating : Int
  comments : Option String
  deriving Repr, DecidableEq

/-- The two tables written by the submission endpoint. -/
structure ServerState where
  feedbacks : List Feedback
  feedbackQuestions : List FeedbackQuestionRow
  deriving Repr, DecidableEq

/-- `POST /api/feedbacks` (`server.js` 833–895): inserts one `feedbacks`
row with the freshly generated id and one `feedback_questions` row per
submitted question, then commits.  The handler performs no validation of
any kind — in particular no duplicate check on the (user, target
department) pair and no range check on ratings. -/
def postFeedback (st : ServerState) (newId : String) (req : FeedbackRequest) :
    ServerState :=
  ⟨st.feedbacks ++
      [⟨newId, req.userId, req.userName, req.userEmail, req.userDepartment,
        req.targetDepartment, req.questions, req.additionalComment⟩],
   st.feedbackQuestions ++
      req.questions.map (fun q => ⟨newId, q.text, q.rating, q.comment⟩)⟩

/-- A period question as the client receives it (`{id, text, type}`). -/
structure Question where
  id : String
  text : String
  kind : String
  deriving Repr, DecidableEq

/-- The rating values offered by the client form's radio inputs
(`FeedbackForm.tsx` line 218: `[1, 2, 3, 4, 5].map(...)`). -/
def ratingOptions : List Int :=
  [1, 2, 3, 4, 5]

/-- The feedback questions the client form builds on submit
(`FeedbackForm.tsx` lines 86–96): each period question is paired with the
selected radio value for its id (`parseInt(formQuestion.rating, 10)`) and
the optional comment; the selection is modelled by `choose` / `comm`. -/
def clientQuestions (pqs : List Question) (choose : String → Int)
    (comm : String → Option String) : List FQuestion :=
  pqs.map (fun q => ⟨q.id, q.text, choose q.id, comm q.id⟩)

/-- `GET /api/feedbacks` as a state transformer: a snapshot read of the
feedback rows followed by the pure aggregation.  The handler only runs
SELECT statements, so the database component is returned unchanged. -/
def runStats (db : List FeedbackRow) : List DeptStat × List FeedbackRow :=
  (statsAggregator (db.map processRow), db)

/-- The availability read path as a state transformer: snapshot reads of
the active periods and the submitted departments, then the pure filter;
no writes occur. -/
def runAvailability (periods : List Period) (submitted : List String)
    (u : String) : List Period × (List Period × List String) :=
  (availabilityFilter periods u submitted, (periods, submitted))

theorem deptQuestions_cons (fb : Feedback) (dfbs : List Feedback) :
    deptQuestions (fb :: dfbs) = fb.questions ++ deptQuestions dfbs := rfl

theorem deptQuestions_append (l₁ l₂ : List Feedback) :
    deptQuestions (l₁ ++ l₂) = deptQuestions l₁ ++ deptQuestions l₂ := by
  induction l₁ with
  | nil => rfl
  | cons fb t ih => simp [deptQuestions_cons, ih, List.append_assoc]

/-- Both branches of `departmentStat` set the `department` field to `d`. -/
theorem departmentStat_department (fbs : List Feedback) (d : String) :
    (departmentStat fbs d).department = d := by
  by_cases h : (fbs.filter (fun f => f.targetDepartment = d)).length = 0 <;>
    simp [departmentStat, h]

/-- C2.  `statsAggregator` yields one entry per fixed department, in the
fixed order, for every input. -/
theorem statsAggregator_one_entry_per_department (fbs : List Feedback) :
    (statsAggregator fbs).map (fun s => s.department) = departments ∧
    (statsAggregator fbs).length = departments.length ∧
    departments.Nodup := by
  refine ⟨?_, by simp [statsAggregator], by decide⟩
  unfold statsAggregator
  rw [List.map_map]
  have : departments.map (fun d => (departmentStat fbs d).department) =
      departments.map (fun d => d) :=
    List.map_congr_left (fun d _ => departmentStat_department fbs d)
  simpa using this

/-- C3.  The availability filter returns exactly the order-preserving
sub-list of the input periods whose department is neither the user's own
department nor among the already-submitted departments; in particular no
returned period targets the user's own department. -/
theorem availabilityFilter_spec (periods : List Period) (u : String)
    (submitted : List String) :
    availabilityFilter periods u submitted =
      periods.filter (fun p => p.department ≠ u ∧ p.department ∉ submitted) ∧
    ∀ p ∈ availabilityFilter periods u submitted,
      p.department ≠ u ∧ p.department ∉ submitted := by
  have h : availabilityFilter periods u submitted =
      periods.filter (fun p => p.department ≠ u ∧ p.department ∉ submitted) := by
    unfold availabilityFilter availablePeriods filteredPeriods
    rw [List.filter_filter]
    apply List.filter_congr
    intro p _
    simp [Bool.and_comm]
  refine ⟨h, ?_⟩
  intro p hp
  rw [h] at hp
  have := List.of_mem_filter hp
  simpa using this

/-- C5.  A fixed department with no feedback targeting it is reported with
`averageRating = 0`, `totalFeedbacks = 0` and empty `questionStats`, and
that entry appears in the aggregator output. -/
theorem departmentStat_empty (fbs : List Feedback) (d : String)
    (hd : d ∈ departments) (h : deptFeedbacks fbs d = []) :
    departmentStat fbs d = ⟨d, 0, 0, []⟩ ∧
    (⟨d, 0, 0, []⟩ : DeptStat) ∈ statsAggregator fbs := by
  have he : departmentStat fbs d = ⟨d, 0, 0, []⟩ := by
    unfold departmentStat
    have h' : fbs.filter (fun f => f.targetDepartment = d) = [] := h
    simp [h']
  exact ⟨he, he ▸ List.mem_map_of_mem (departmentStat fbs) hd⟩

theorem foldl_add_rating (qs : List FQuestion) (t : Int) :
    qs.foldl (fun t q => t + q.rating) t = t + (qs.map (fun q => q.rating)).sum := by
  induction qs generalizing t with
  | nil => simp
  | cons q qs ih => simp [ih, add_assoc]

theorem foldl_count_one (qs : List FQuestion) (n : Nat) :
    qs.foldl (fun n _ => n + 1) n = n + qs.length := by
  induction qs generalizing n with
  | nil => simp
  | cons q qs ih => simp [ih]; omega

theorem deptTotalRating_eq (dfbs : List Feedback) :
    deptTotalRating dfbs = ratingSum dfbs := by
  suffices h : ∀ t : Int,
      dfbs.foldl (fun t fb => fb.questions.foldl (fun t q => t + q.rating) t) t =
        t + ratingSum dfbs by
    simpa [deptTotalRating] using h 0
  induction dfbs with
  | nil => intro t; simp [ratingSum, deptQuestions]
  | cons fb dfbs ih =>
      intro t
      rw [List.foldl_cons, foldl_add_rating, ih]
      simp only [ratingSum, deptQuestions_cons, List.map_append, List.sum_append]
      ring

theorem deptTotalQuestions_eq (dfbs : List Feedback) :
    deptTotalQuestions dfbs = ratingCount dfbs := by
  suffices h : ∀ n : Nat,
      dfbs.foldl (fun n fb => fb.questions.foldl (fun n _ => n + 1) n) n =
        n + ratingCount dfbs by
    simpa [deptTotalQuestions] using h 0
  induction dfbs with
  | nil => intro n; simp [ratingCount, deptQuestions]
  | cons fb dfbs ih =>
      intro n
      rw [List.foldl_cons, foldl_count_one, ih]
      simp only [ratingCount, deptQuestions_cons, List.length_append]
      omega

theorem ratingSum_of_count_zero (dfbs : List Feedback)
    (h : ratingCount dfbs = 0) : ratingSum dfbs = 0 := by
  unfold ratingCount at h
  unfold ratingSum
  rw [List.length_eq_zero.mp h]
  rfl

/-- Unconditional characterisation of the reported overall average: it is
always the total rating divided by the number of ratings (the rational
convention `0 / 0 = 0` coincides with both `0`-producing branches of the
code). -/
theorem departmentStat_averageRating (fbs : List Feedback) (d : String) :
    (departmentStat fbs d).averageRating =
      (ratingSum (deptFeedbacks fbs d) : ℚ) / (ratingCount (deptFeedbacks fbs d) : ℚ) := by
  by_cases h : (fbs.filter (fun f => f.targetDepartment = d)).length = 0
  · have h' : deptFeedbacks fbs d = [] := List.length_eq_zero.mp h
    rw [h']
    simp [departmentStat, h, ratingSum, ratingCount, deptQuestions]
  · have hP : deptFeedbacks fbs d = fbs.filter (fun f => f.targetDepartment = d) := rfl
    rw [hP]
    simp only [departmentStat, h, if_false, deptTotalRating_eq, deptTotalQuestions_eq]
    by_cases hc : ratingCount (fbs.filter (fun f => f.targetDepartment = d)) = 0
    · have hs : ratingSum (fbs.filter (fun f => f.targetDepartment = d)) = 0 :=
        ratingSum_of_count_zero _ hc
      simp [hc, hs]
    · have hpos : 0 < ratingCount (fbs.filter (fun f => f.targetDepartment = d)) :=
        Nat.pos_of_ne_zero hc
      simp [hpos]

/-- Unconditional characterisation of the reported feedback count. -/
theorem departmentStat_totalFeedbacks (fbs : List Feedback) (d : String) :
    (departmentStat fbs d).totalFeedbacks = (deptFeedbacks fbs d).length := by
  by_cases h : (fbs.filter (fun f => f.targetDepartment = d)).length = 0
  · simp [departmentStat, h, deptFeedbacks, h]
  · simp [departmentStat, h, deptFeedbacks]

/-- Unconditional characterisation of the reported question statistics. -/
theorem departmentStat_questionStats (fbs : List Feedback) (d : String) :
    (departmentStat fbs d).questionStats =
      (questionMapOf (deptFeedbacks fbs d)).map qaccToStat := by
  by_cases h : (fbs.filter (fun f => f.targetDepartment = d)).length = 0
  · have h' : fbs.filter (fun f => f.targetDepartment = d) = [] :=
      List.length_eq_zero.mp h
    simp [departmentStat, h, deptFeedbacks, h', questionMapOf]
  · simp [departmentStat, h, deptFeedbacks]

/-- C1.  For a fixed-list department with at least one feedback targeting
it, the reported overall average is the sum of all ratings across all
questions of all feedbacks in that partition divided by the total number
of ratings, and the entry is part of the aggregator output. -/
theorem statsAggregator_overall_average (fbs : List Feedback) (d : String)
    (hd : d ∈ departments) (_hne : deptFeedbacks fbs d ≠ []) :
    departmentStat fbs d ∈ statsAggregator fbs ∧
    (departmentStat fbs d).averageRating =
      (ratingSum (deptFeedbacks fbs d) : ℚ) / (ratingCount (deptFeedbacks fbs d) : ℚ) :=
  ⟨List.mem_map_of_mem (departmentStat fbs) hd,
   departmentStat_averageRating fbs d⟩

/-- Witness for C1: the spec's worked example.  F1 = {q1 : 5, q2 : 3} and
F2 = {q1 : 1}, both targeting `IT`: the overall average is (5+3+1)/3 = 3. -/
theorem statsAggregator_overall_average_witness :
    ("IT" ∈ departments ∧
      deptFeedbacks
        [⟨"FB1", "u1", "n", "e", "HR", "IT", [⟨"q1", "t1", 5, none⟩, ⟨"q2", "t2", 3, none⟩], none⟩,
         ⟨"FB2", "u2", "n", "e", "HR", "IT", [⟨"q1", "t1", 1, none⟩], none⟩] "IT" ≠ []) ∧
    (departmentStat
        [⟨"FB1", "u1", "n", "e", "HR", "IT", [⟨"q1", "t1", 5, none⟩, ⟨"q2", "t2", 3, none⟩], none⟩,
         ⟨"FB2", "u2", "n", "e", "HR", "IT", [⟨"q1", "t1", 1, none⟩], none⟩] "IT").averageRating = 3 := by
  refine ⟨⟨by decide, by decide⟩, ?_⟩
  have h := statsAggregator_overall_average
    [⟨"FB1", "u1", "n", "e", "HR", "IT", [⟨"q1", "t1", 5, none⟩, ⟨"q2", "t2", 3, none⟩], none⟩,
     ⟨"FB2", "u2", "n", "e", "HR", "IT", [⟨"q1", "t1", 1, none⟩], none⟩] "IT"
    (by decide) (by decide)
  rw [h.2]
  norm_num [ratingSum, ratingCount, deptQuestions, deptFeedbacks]

theorem qTotal_cons (i : String) (q : FQuestion) (qs : List FQuestion) :
    qTotal i (q :: qs) = (if q.qid = i then q.rating else 0) + qTotal i qs := by
  by_cases h : q.qid = i <;> simp [qTotal, h]

theorem qCount_cons (i : String) (q : FQuestion) (qs : List FQuestion) :
    qCount i (q :: qs) = (if q.qid = i then 1 else 0) + qCount i qs := by
  by_cases h : q.qid = i <;> simp [qCount, h, Nat.add_comm]

/-- The in-place update of an existing map entry does not change its id. -/
theorem insertQ_update_qid (q : FQuestion) (s : QAcc) :
    ((fun s => if s.questionId = q.qid then
        { s with totalRating := s.totalRating + q.rating, count := s.count + 1 }
      else s) s).questionId = s.questionId := by
  by_cases h : s.questionId = q.qid <;> simp [h]

theorem findQ_map (acc : List QAcc) (f : QAcc → QAcc)
    (hf : ∀ s, (f s).questionId = s.questionId) (i : String) :
    (acc.map f).find? (fun s => s.questionId = i) =
      (acc.find? (fun s => s.questionId = i)).map f := by
  induction acc with
  | nil => rfl
  | cons a t ih =>
      by_cases ha : a.questionId = i
      · have ha' : (f a).questionId = i := by rw [hf a]; exact ha
        simp [List.find?_cons_of_pos, ha, ha']
      · have ha' : ¬ (f a).questionId = i := by rw [hf a]; exact ha
        rw [List.map_cons, List.find?_cons_of_neg _ (by simpa using ha'),
          List.find?_cons_of_neg _ (by simpa using ha)]
        exact ih

/-- How one `insertQ` step changes the entry found for an identifier. -/
theorem find?_insertQ (acc : List QAcc) (q : FQuestion) (i : String) :
    (insertQ acc q).find? (fun s => s.questionId = i) =
      match acc.find? (fun s => s.questionId = i) with
      | some s =>
          some (if s.questionId = q.qid then
                  { s with totalRating := s.totalRating + q.rating, count := s.count + 1 }
                else s)
      | none => if q.qid = i then some ⟨q.qid, q.text, q.rating, 1⟩ else none := by
  unfold insertQ
  by_cases hq : acc.any (fun s => s.questionId = q.qid)
  · rw [if_pos hq, findQ_map _ _ (insertQ_update_qid q) i]
    cases hfind : acc.find? (fun s => s.questionId = i) with
    | none =>
        by_cases hqi : q.qid = i
        · exfalso
          rcases List.any_eq_true.mp hq with ⟨s, hs, he⟩
          have hsq : s.questionId = q.qid := by simpa using he
          have := List.find?_eq_none.mp hfind s hs
          exact this (by simp [hsq, hqi])
        · simp [hqi]
    | some s => rfl
  · rw [if_neg hq, List.find?_append]
    cases hfind : acc.find? (fun s => s.questionId = i) with
    | none =>
        by_cases hqi : q.qid = i <;> simp [hqi]
    | some s =>
        have hmem : s ∈ acc := List.mem_of_find?_eq_some hfind
        have hsi : s.questionId = i := by simpa using List.find?_some hfind
        have hsq : ¬ s.questionId = q.qid := by
          intro he
          exact hq (List.any_eq_true.mpr ⟨s, hmem, by simpa using he⟩)
        simp [hsq]

theorem findTotal_insertQ (acc : List QAcc) (q : FQuestion) (i : String) :
    findTotal i (insertQ acc q) =
      findTotal i acc + (if q.qid = i then q.rating else 0) := by
  unfold findTotal
  rw [find?_insertQ]
  cases hfind : acc.find? (fun s => s.questionId = i) with
  | none => by_cases hqi : q.qid = i <;> simp [hqi]
  | some s =>
      have hsi : s.questionId = i := by simpa using List.find?_some hfind
      by_cases hsq : s.questionId = q.qid
      · have hqi : q.qid = i := by rw [← hsq, hsi]
        simp [hsq, hqi]
      · have hqi : ¬ q.qid = i := fun h => hsq (by rw [hsi, h])
        simp [hsq, hqi]

theorem findCount_insertQ (acc : List QAcc) (q : FQuestion) (i : String) :
    findCount i (insertQ acc q) =
      findCount i acc + (if q.qid = i then 1 else 0) := by
  unfold findCount
  rw [find?_insertQ]
  cases hfind : acc.find? (fun s => s.questionId = i) with
  | none => by_cases hqi : q.qid = i <;> simp [hqi]
  | some s =>
      have hsi : s.questionId = i := by simpa using List.find?_some hfind
      by_cases hsq : s.questionId = q.qid
      · have hqi : q.qid = i := by rw [← hsq, hsi]
        simp [hsq, hqi]
      · have hqi : ¬ q.qid = i := fun h => hsq (by rw [hsi, h])
        simp [hsq, hqi]

theorem findTotal_foldl_insertQ (qs : List FQuestion) (acc : List QAcc) (i : String) :
    findTotal i (qs.foldl insertQ acc) = findTotal i acc + qTotal i qs := by
  induction qs generalizing acc with
  | nil => simp [qTotal]
  | cons q qs ih =>
      rw [List.foldl_cons, ih, findTotal_insertQ, qTotal_cons]
      ring

theorem findCount_foldl_insertQ (qs : List FQuestion) (acc : List QAcc) (i : String) :
    findCount i (qs.foldl insertQ acc) = findCount i acc + qCount i qs := by
  induction qs generalizing acc with
  | nil => simp [qCount]
  | cons q qs ih =>
      rw [List.foldl_cons, ih, findCount_insertQ, qCount_cons]
      omega

/-- How one `insertQ` step changes the identifier list of the map. -/
theorem qidsOf_insertQ (acc : List QAcc) (q : FQuestion) :
    qidsOf (insertQ acc q) =
      if q.qid ∈ qidsOf acc then qidsOf acc else qidsOf acc ++ [q.qid] := by
  by_cases hq : acc.any (fun s => s.questionId = q.qid)
  · have hmem : q.qid ∈ qidsOf acc := by
      rcases List.any_eq_true.mp hq with ⟨s, hs, he⟩
      exact List.mem_map.mpr ⟨s, hs, by simpa using he⟩
    rw [if_pos hmem]
    unfold insertQ qidsOf
    rw [if_pos hq, List.map_map]
    exact List.map_congr_left (fun s _ => insertQ_update_qid q s)
  · have hmem : ¬ q.qid ∈ qidsOf acc := by
      intro hc
      rcases List.mem_map.mp hc with ⟨s, hs, he⟩
      exact hq (List.any_eq_true.mpr ⟨s, hs, by simpa using he⟩)
    rw [if_neg hmem]
    unfold insertQ qidsOf
    rw [if_neg hq, List.map_append]
    rfl

theorem qidsOf_foldl_insertQ (qs : List FQuestion) (acc : List QAcc) :
    qidsOf (qs.foldl insertQ acc) =
      (qs.map (fun q => q.qid)).foldl
        (fun l i => if i ∈ l then l else l ++ [i]) (qidsOf acc) := by
  induction qs generalizing acc with
  | nil => rfl
  | cons q qs ih =>
      rw [List.foldl_cons, ih, qidsOf_insertQ, List.map_cons, List.foldl_cons]

/-- The nested `forEach` equals the flat left fold over all questions. -/
theorem questionMapOf_eq (dfbs : List Feedback) :
    questionMapOf dfbs = (deptQuestions dfbs).foldl insertQ [] := by
  suffices h : ∀ acc, dfbs.foldl (fun acc fb => fb.questions.foldl insertQ acc) acc
      = (deptQuestions dfbs).foldl insertQ acc from h []
  induction dfbs with
  | nil => intro acc; rfl
  | cons fb t ih =>
      intro acc
      rw [List.foldl_cons, ih, deptQuestions_cons, List.foldl_append]

theorem foldl_firstOccur_nodup (ids : List String) (l : List String) (hl : l.Nodup) :
    (ids.foldl (fun l i => if i ∈ l then l else l ++ [i]) l).Nodup := by
  induction ids generalizing l with
  | nil => exact hl
  | cons i ids ih =>
      rw [List.foldl_cons]
      by_cases h : i ∈ l
      · rw [if_pos h]; exact ih l hl
      · rw [if_neg h]
        refine ih _ ?_
        rw [List.nodup_append_comm]
        simpa using List.nodup_cons.mpr ⟨h, hl⟩

theorem mem_foldl_firstOccur (ids : List String) (l : List String) (x : String)
    (hx : x ∈ ids.foldl (fun l i => if i ∈ l then l else l ++ [i]) l) :
    x ∈ l ∨ x ∈ ids := by
  induction ids generalizing l with
  | nil => exact Or.inl hx
  | cons i ids ih =>
      rw [List.foldl_cons] at hx
      by_cases h : i ∈ l
      · rw [if_pos h] at hx
        rcases ih l hx with h' | h'
        · exact Or.inl h'
        · exact Or.inr (List.mem_cons_of_mem _ h')
      · rw [if_neg h] at hx
        rcases ih _ hx with h' | h'
        · rcases List.mem_append.mp h' with h'' | h''
          · exact Or.inl h''
          · have : x = i := by simpa using h''
            exact Or.inr (this ▸ List.mem_cons_self _ _)
        · exact Or.inr (List.mem_cons_of_mem _ h')

/-- In a duplicate-free map, the entry found for a member's id is itself. -/
theorem find?_qid_of_mem (acc : List QAcc) (s : QAcc)
    (hnd : (qidsOf acc).Nodup) (hs : s ∈ acc) :
    acc.find? (fun t => t.questionId = s.questionId) = some s := by
  induction acc with
  | nil => cases hs
  | cons a t ih =>
      have hnd' : (a.questionId :: qidsOf t).Nodup := hnd
      rcases List.mem_cons.mp hs with rfl | hs'
      · exact List.find?_cons_of_pos _ (by simp)
      · have hne : ¬ (a.questionId = s.questionId) := by
          intro he
          have hmem : s.questionId ∈ qidsOf t := List.mem_map.mpr ⟨s, hs', rfl⟩
          exact (List.nodup_cons.mp hnd').1 (he ▸ hmem)
        rw [List.find?_cons_of_neg _ (by simpa using hne)]
        exact ih (List.nodup_cons.mp hnd').2 hs'

theorem qCount_pos_of_mem (qs : List FQuestion) (x : String)
    (hx : x ∈ qs.map (fun q => q.qid)) : 0 < qCount x qs := by
  rcases List.mem_map.mp hx with ⟨q, hq, rfl⟩
  unfold qCount
  rw [List.length_pos]
  intro hemp
  have hmem : q ∈ qs.filter (fun q' => q'.qid = q.qid) :=
    List.mem_filter.mpr ⟨hq, by simp⟩
  rw [hemp] at hmem
  cases hmem

/-- C4.  Within a department partition the aggregator groups the embedded
question/rating pairs by question identifier: the reported identifiers are
exactly the first-encounter order of the identifiers occurring in the
partition, every reported group has a positive count (so the 0-guard for an
empty count never divides by zero), and each reported average is the summed
rating of the group divided by the group count. -/
theorem questionStats_grouping (fbs : List Feedback) (d : String)
    (_hne : deptFeedbacks fbs d ≠ []) :
    ((departmentStat fbs d).questionStats).map (fun s => s.questionId) =
      firstOccurrences ((deptQuestions (deptFeedbacks fbs d)).map (fun q => q.qid)) ∧
    ∀ s ∈ (departmentStat fbs d).questionStats,
      0 < qCount s.questionId (deptQuestions (deptFeedbacks fbs d)) ∧
      s.averageRating =
        (qTotal s.questionId (deptQuestions (deptFeedbacks fbs d)) : ℚ) /
          (qCount s.questionId (deptQuestions (deptFeedbacks fbs d)) : ℚ) := by
  have hqs := departmentStat_questionStats fbs d
  have hmap := questionMapOf_eq (deptFeedbacks fbs d)
  have hids : qidsOf (questionMapOf (deptFeedbacks fbs d)) =
      firstOccurrences ((deptQuestions (deptFeedbacks fbs d)).map (fun q => q.qid)) := by
    rw [hmap, qidsOf_foldl_insertQ]
    rfl
  have hnd : (qidsOf (questionMapOf (deptFeedbacks fbs d))).Nodup := by
    rw [hids]
    exact foldl_firstOccur_nodup _ [] List.nodup_nil
  constructor
  · rw [hqs, List.map_map]
    have : (questionMapOf (deptFeedbacks fbs d)).map
          (fun s => (qaccToStat s).questionId) =
        (questionMapOf (deptFeedbacks fbs d)).map (fun s => s.questionId) :=
      List.map_congr_left (fun s _ => rfl)
    rw [show ((fun s => s.questionId) ∘ qaccToStat : QAcc → String) =
        fun s => (qaccToStat s).questionId from rfl, this, ← hids]
    rfl
  · intro s hsmem
    rw [hqs] at hsmem
    rcases List.mem_map.mp hsmem with ⟨t, ht, rfl⟩
    have hfind : (questionMapOf (deptFeedbacks fbs d)).find?
        (fun u => u.questionId = t.questionId) = some t :=
      find?_qid_of_mem _ t hnd ht
    have htot : t.totalRating =
        qTotal t.questionId (deptQuestions (deptFeedbacks fbs d)) := by
      have h1 := findTotal_foldl_insertQ (deptQuestions (deptFeedbacks fbs d)) []
        t.questionId
      rw [← hmap] at h1
      unfold findTotal at h1
      rw [hfind] at h1
      simpa [findTotal] using h1
    have hcnt : t.count =
        qCount t.questionId (deptQuestions (deptFeedbacks fbs d)) := by
      have h1 := findCount_foldl_insertQ (deptQuestions (deptFeedbacks fbs d)) []
        t.questionId
      rw [← hmap] at h1
      unfold findCount at h1
      rw [hfind] at h1
      simpa [findCount] using h1
    have hid : (qaccToStat t).questionId = t.questionId := rfl
    have hpos : 0 < qCount t.questionId (deptQuestions (deptFeedbacks fbs d)) := by
      apply qCount_pos_of_mem
      have : t.questionId ∈ qidsOf (questionMapOf (deptFeedbacks fbs d)) :=
        List.mem_map.mpr ⟨t, ht, rfl⟩
      rw [hids] at this
      rcases mem_foldl_firstOccur _ [] _ this with h' | h'
      · cases h'
      · exact h'
    refine ⟨by rw [hid]; exact hpos, ?_⟩
    rw [hid]
    show (if t.count > 0 then (t.totalRating : ℚ) / (t.count : ℚ) else 0) = _
    rw [htot, hcnt, if_pos (by omega)]

/-- Witness for C5 at a concrete input: one feedback targeting `HR`, the
department `IT` has no feedback and is reported with zeroes. -/
theorem departmentStat_empty_witness :
    ("IT" ∈ departments ∧
      deptFeedbacks [⟨"FB1", "u1", "n", "e", "IT", "HR", [⟨"q1", "t", 5, none⟩], none⟩] "IT" = []) ∧
    departmentStat [⟨"FB1", "u1", "n", "e", "IT", "HR", [⟨"q1", "t", 5, none⟩], none⟩] "IT" =
      ⟨"IT", 0, 0, []⟩ := by
  refine ⟨⟨by decide, by decide⟩, ?_⟩
  exact (departmentStat_empty _ "IT" (by decide) (by decide)).1

/-- Witness for C4: the spec's worked example.  F1 = {q1 : 5, q2 : 3} and
F2 = {q1 : 1}, both targeting `IT`: the grouped identifiers are
`[q1, q2]` in first-encounter order and both per-question averages are 3. -/
theorem questionStats_grouping_witness :
    deptFeedbacks
        [⟨"FB1", "u1", "n", "e", "HR", "IT",
            [⟨"q1", "t1", 5, none⟩, ⟨"q2", "t2", 3, none⟩], none⟩,
         ⟨"FB2", "u2", "n", "e", "HR", "IT", [⟨"q1", "t1", 1, none⟩], none⟩] "IT" ≠ [] ∧
    ((departmentStat
        [⟨"FB1", "u1", "n", "e", "HR", "IT",
            [⟨"q1", "t1", 5, none⟩, ⟨"q2", "t2", 3, none⟩], none⟩,
         ⟨"FB2", "u2", "n", "e", "HR", "IT", [⟨"q1", "t1", 1, none⟩], none⟩] "IT").questionStats).map
        (fun s => s.questionId) =
      firstOccurrences
        ((deptQuestions (deptFeedbacks
          [⟨"FB1", "u1", "n", "e", "HR", "IT",
              [⟨"q1", "t1", 5, none⟩, ⟨"q2", "t2", 3, none⟩], none⟩,
           ⟨"FB2", "u2", "n", "e", "HR", "IT", [⟨"q1", "t1", 1, none⟩], none⟩] "IT")).map
          (fun q => q.qid)) ∧
    (qTotal "q1" (deptQuestions (deptFeedbacks
          [⟨"FB1", "u1", "n", "e", "HR", "IT",
              [⟨"q1", "t1", 5, none⟩, ⟨"q2", "t2", 3, none⟩], none⟩,
           ⟨"FB2", "u2", "n", "e", "HR", "IT", [⟨"q1", "t1", 1, none⟩], none⟩] "IT")) = 6 ∧
      qCount "q1" (deptQuestions (deptFeedbacks
          [⟨"FB1", "u1", "n", "e", "HR", "IT",
              [⟨"q1", "t1", 5, none⟩, ⟨"q2", "t2", 3, none⟩], none⟩,
           ⟨"FB2", "u2", "n", "e", "HR", "IT", [⟨"q1", "t1", 1, none⟩], none⟩] "IT")) = 2 ∧
      qTotal "q2" (deptQuestions (deptFeedbacks
          [⟨"FB1", "u1", "n", "e", "HR", "IT",
              [⟨"q1", "t1", 5, none⟩, ⟨"q2", "t2", 3, none⟩], none⟩,
           ⟨"FB2", "u2", "n", "e", "HR", "IT", [⟨"q1", "t1", 1, none⟩], none⟩] "IT")) = 3 ∧
      qCount "q2" (deptQuestions (deptFeedbacks
          [⟨"FB1", "u1", "n", "e", "HR", "IT",
              [⟨"q1", "t1", 5, none⟩, ⟨"q2", "t2", 3, none⟩], none⟩,
           ⟨"FB2", "u2", "n", "e", "HR", "IT", [⟨"q1", "t1", 1, none⟩], none⟩] "IT")) = 1) := by
  refine ⟨by decide, ?_, by decide, by decide, by decide, by decide⟩
  exact (questionStats_grouping
    [⟨"FB1", "u1", "n", "e", "HR", "IT",
        [⟨"q1", "t1", 5, none⟩, ⟨"q2", "t2", 3, none⟩], none⟩,
     ⟨"FB2", "u2", "n", "e", "HR", "IT", [⟨"q1", "t1", 1, none⟩], none⟩] "IT"
    (by decide)).1

theorem deptFeedbacks_append (l₁ l₂ : List Feedback) (d : String) :
    deptFeedbacks (l₁ ++ l₂) d = deptFeedbacks l₁ d ++ deptFeedbacks l₂ d := by
  unfold deptFeedbacks
  exact List.filter_append _ _

theorem deptFeedbacks_cons (f : Feedback) (l : List Feedback) (d : String) :
    deptFeedbacks (f :: l) d =
      if f.targetDepartment = d then f :: deptFeedbacks l d else deptFeedbacks l d := by
  unfold deptFeedbacks
  by_cases h : f.targetDepartment = d <;> simp [List.filter_cons, h]

/-- C8.  A record whose embedded question data is unparseable is processed
with zero questions; inserting it anywhere in the feedback list leaves the
reported average and question statistics of every department unchanged, so
the aggregation never aborts and every other record's contribution is
untouched. -/
theorem badRecord_isolated (r : FeedbackRow) (hbad : r.questionsData = none)
    (fbs₁ fbs₂ : List Feedback) (d : String) :
    (processRow r).questions = [] ∧
    (departmentStat (fbs₁ ++ processRow r :: fbs₂) d).averageRating =
      (departmentStat (fbs₁ ++ fbs₂) d).averageRating ∧
    (departmentStat (fbs₁ ++ processRow r :: fbs₂) d).questionStats =
      (departmentStat (fbs₁ ++ fbs₂) d).questionStats := by
  have hq : (processRow r).questions = [] := by simp [processRow, hbad]
  have hkey : deptQuestions (deptFeedbacks (fbs₁ ++ processRow r :: fbs₂) d) =
      deptQuestions (deptFeedbacks (fbs₁ ++ fbs₂) d) := by
    rw [deptFeedbacks_append, deptFeedbacks_append, deptFeedbacks_cons]
    by_cases h : (processRow r).targetDepartment = d
    · rw [if_pos h, deptQuestions_append, deptQuestions_cons, hq,
        deptQuestions_append]
      simp
    · rw [if_neg h]
  refine ⟨hq, ?_, ?_⟩
  · rw [departmentStat_averageRating, departmentStat_averageRating]
    unfold ratingSum ratingCount
    rw [hkey]
  · rw [departmentStat_questionStats, departmentStat_questionStats,
      questionMapOf_eq, questionMapOf_eq, hkey]

/-- Witness for C8: a row with unparseable questions targeting `IT`,
inserted after one good `IT` feedback, leaves the average and the question
statistics as they were. -/
theorem badRecord_isolated_witness :
    (⟨"FBX", "u2", "n", "e", "HR", "IT", none, none⟩ : FeedbackRow).questionsData = none ∧
    (processRow ⟨"FBX", "u2", "n", "e", "HR", "IT", none, none⟩).questions = [] ∧
    (departmentStat
        ([⟨"FB1", "u1", "n", "e", "HR", "IT", [⟨"q1", "t1", 4, none⟩], none⟩] ++
          processRow ⟨"FBX", "u2", "n", "e", "HR", "IT", none, none⟩ :: []) "IT").averageRating =
      (departmentStat
        ([⟨"FB1", "u1", "n", "e", "HR", "IT", [⟨"q1", "t1", 4, none⟩], none⟩] ++ []) "IT").averageRating := by
  have h := badRecord_isolated ⟨"FBX", "u2", "n", "e", "HR", "IT", none, none⟩ rfl
    [⟨"FB1", "u1", "n", "e", "HR", "IT", [⟨"q1", "t1", 4, none⟩], none⟩] [] "IT"
  exact ⟨rfl, h.1, h.2.1⟩

theorem deptQuestions_eq_nil (l : List Feedback) (h : ∀ f ∈ l, f.questions = []) :
    deptQuestions l = [] := by
  induction l with
  | nil => rfl
  | cons f t ih =>
      rw [deptQuestions_cons, h f (List.mem_cons_self f t), List.nil_append]
      exact ih (fun g hg => h g (List.mem_cons_of_mem f hg))

/-- C10.  The reported `totalFeedbacks` always equals the number of records
targeting the department — records with empty (or unparseable, hence empty)
question lists included; a department whose only feedbacks carry no
questions is reported with a positive `totalFeedbacks` together with
`averageRating = 0` and empty `questionStats`. -/
theorem totalFeedbacks_counts_all_records (fbs : List Feedback) (d : String) :
    (departmentStat fbs d).totalFeedbacks = (deptFeedbacks fbs d).length ∧
    (deptFeedbacks fbs d ≠ [] →
      (∀ f ∈ deptFeedbacks fbs d, f.questions = []) →
      0 < (departmentStat fbs d).totalFeedbacks ∧
      (departmentStat fbs d).averageRating = 0 ∧
      (departmentStat fbs d).questionStats = []) := by
  refine ⟨departmentStat_totalFeedbacks fbs d, fun hne hq => ?_⟩
  have hdq : deptQuestions (deptFeedbacks fbs d) = [] := deptQuestions_eq_nil _ hq
  refine ⟨?_, ?_, ?_⟩
  · rw [departmentStat_totalFeedbacks]
    exact List.length_pos.mpr hne
  · rw [departmentStat_averageRating]
    unfold ratingSum ratingCount
    rw [hdq]
    simp
  · rw [departmentStat_questionStats, questionMapOf_eq, hdq]
    rfl

/-- Witness for C10: a department whose only feedback has an empty question
list is reported with `totalFeedbacks = 1`, `averageRating = 0` and empty
`questionStats` — it does not take the zero-feedback branch. -/
theorem totalFeedbacks_counts_all_records_witness :
    (deptFeedbacks [⟨"FB1", "u1", "n", "e", "HR", "IT", [], none⟩] "IT" ≠ [] ∧
      ∀ f ∈ deptFeedbacks [⟨"FB1", "u1", "n", "e", "HR", "IT", [], none⟩] "IT",
        f.questions = []) ∧
    (departmentStat [⟨"FB1", "u1", "n", "e", "HR", "IT", [], none⟩] "IT").totalFeedbacks = 1 ∧
    0 < (departmentStat [⟨"FB1", "u1", "n", "e", "HR", "IT", [], none⟩] "IT").totalFeedbacks ∧
    (departmentStat [⟨"FB1", "u1", "n", "e", "HR", "IT", [], none⟩] "IT").averageRating = 0 ∧
    (departmentStat [⟨"FB1", "u1", "n", "e", "HR", "IT", [], none⟩] "IT").questionStats = [] := by
  have h := totalFeedbacks_counts_all_records
    [⟨"FB1", "u1", "n", "e", "HR", "IT", [], none⟩] "IT"
  have h2 := h.2 (by decide) (by decide)
  exact ⟨⟨by decide, by decide⟩, by rw [h.1]; decide, h2.1, h2.2.1, h2.2.2⟩

/-- C6.  The one-feedback-per-(user, target department) rule is enforced
only at the presentation layer: the backend submission endpoint appends
unconditionally — even when a feedback for the same pair already exists,
the write succeeds and the pair is now stored at least twice — while the
client-side availability list excludes every period whose department the
user has already submitted feedback for. -/
theorem duplicate_rule_presentation_only (st : ServerState) (newId : String)
    (req : FeedbackRequest) (periods : List Period) (u : String)
    (submitted : List String)
    (hdup : ∃ f ∈ st.feedbacks, f.userId = req.userId ∧
      f.targetDepartment = req.targetDepartment) :
    (postFeedback st newId req).feedbacks.length = st.feedbacks.length + 1 ∧
    2 ≤ (postFeedback st newId req).feedbacks.countP
          (fun f => f.userId = req.userId ∧ f.targetDepartment = req.targetDepartment) ∧
    ∀ p ∈ availablePeriods (filteredPeriods periods u) submitted,
      p.department ∉ submitted := by
  refine ⟨by simp [postFeedback], ?_, ?_⟩
  · have h1 : 0 < st.feedbacks.countP
        (fun f => f.userId = req.userId ∧ f.targetDepartment = req.targetDepartment) := by
      rcases hdup with ⟨f, hf, h⟩
      exact List.countP_pos_iff.mpr ⟨f, hf, by simpa using h⟩
    have h2 : (postFeedback st newId req).feedbacks.countP
        (fun f => f.userId = req.userId ∧ f.targetDepartment = req.targetDepartment) =
        st.feedbacks.countP
          (fun f => f.userId = req.userId ∧ f.targetDepartment = req.targetDepartment) + 1 := by
      simp [postFeedback, List.countP_append, List.countP_cons]
    omega
  · intro p hp
    have := List.of_mem_filter hp
    simpa using this

/-- Witness for C6: the user `u1` already has a stored feedback for `IT`;
the backend accepts a second one (the pair is stored twice) and the
availability list for submitted = [IT] never offers `IT` again. -/
theorem duplicate_rule_presentation_only_witness :
    (∃ f ∈ [(⟨"FB1", "u1", "n", "e", "HR", "IT", [], none⟩ : Feedback)],
        f.userId = "u1" ∧ f.targetDepartment = "IT") ∧
    (postFeedback ⟨[⟨"FB1", "u1", "n", "e", "HR", "IT", [], none⟩], []⟩ "FB2"
        ⟨"u1", "n", "e", "HR", "IT", [], none⟩).feedbacks.length = 2 ∧
    2 ≤ (postFeedback ⟨[⟨"FB1", "u1", "n", "e", "HR", "IT", [], none⟩], []⟩ "FB2"
          ⟨"u1", "n", "e", "HR", "IT", [], none⟩).feedbacks.countP
          (fun f => f.userId = "u1" ∧ f.targetDepartment = "IT") := by
  have h := duplicate_rule_presentation_only
    ⟨[⟨"FB1", "u1", "n", "e", "HR", "IT", [], none⟩], []⟩ "FB2"
    ⟨"u1", "n", "e", "HR", "IT", [], none⟩ [] "HR" ["IT"] (by decide)
  exact ⟨by decide, h.1, h.2.1⟩

/-- C7 counterexample: the backend accepts a submission carrying rating 7 —
the `feedback_questions` row is stored with a rating outside [1, 5], so it
is false that every rating accepted and stored by the submission endpoint
lies in [1, 5]. -/
theorem rating_range_counterexample :
    ∃ fq ∈ (postFeedback ⟨[], []⟩ "FB00000001"
        ⟨"u1", "n", "e", "HR", "IT", [⟨"q1", "t1", 7, none⟩], none⟩).feedbackQuestions,
      ¬ (1 ≤ fq.rating ∧ fq.rating ≤ 5) := by
  decide

/-- C7 (amended).  Ratings reaching the store through the client form are
integers in [1, 5]: the form's radio inputs only offer the values 1–5, so
every `feedback_questions` row written by such a submission is either a
pre-existing row or carries a rating in [1, 5].  The backend itself
performs no range validation. -/
theorem rating_range_client_path (st : ServerState) (newId : String)
    (uid un ue ud td : String) (pqs : List Question)
    (choose : String → Int) (comm : String → Option String) (ac : Option String)
    (hc : ∀ q ∈ pqs, choose q.id ∈ ratingOptions) :
    ∀ fq ∈ (postFeedback st newId
        ⟨uid, un, ue, ud, td, clientQuestions pqs choose comm, ac⟩).feedbackQuestions,
      fq ∈ st.feedbackQuestions ∨ (1 ≤ fq.rating ∧ fq.rating ≤ 5) := by
  intro fq hfq
  rcases List.mem_append.mp hfq with h | h
  · exact Or.inl h
  · right
    rcases List.mem_map.mp h with ⟨q, hq, rfl⟩
    rcases List.mem_map.mp hq with ⟨pq, hpq, rfl⟩
    have hv := hc pq hpq
    simp only [ratingOptions, List.mem_cons, List.not_mem_nil, or_false] at hv
    rcases hv with h' | h' | h' | h' | h' <;> simp [h']

/-- Witness for C7 (amended): a client submission choosing rating 3 for the
single period question stores only in-range ratings. -/
theorem rating_range_client_path_witness :
    (∀ q ∈ [(⟨"q1", "t1", "rating"⟩ : Question)],
        (fun _ => (3 : Int)) q.id ∈ ratingOptions) ∧
    ∀ fq ∈ (postFeedback ⟨[], []⟩ "FB1"
        ⟨"u1", "n", "e", "HR", "IT",
         clientQuestions [⟨"q1", "t1", "rating"⟩] (fun _ => 3) (fun _ => none),
         none⟩).feedbackQuestions,
      fq ∈ ([] : List FeedbackQuestionRow) ∨ (1 ≤ fq.rating ∧ fq.rating ≤ 5) := by
  refine ⟨by decide, ?_⟩
  exact rating_range_client_path ⟨[], []⟩ "FB1" "u1" "n" "e" "HR" "IT"
    [⟨"q1", "t1", "rating"⟩] (fun _ => 3) (fun _ => none) none (by decide)

/-- C9.  Both read paths are deterministic and free of hidden state
mutation: modelled as state transformers, a run leaves its snapshot
unchanged, and a second run on the state left by the first produces the
identical output. -/
theorem read_paths_idempotent (db : List FeedbackRow) (periods : List Period)
    (submitted : List String) (u : String) :
    (runStats (runStats db).2).1 = (runStats db).1 ∧
    (runStats db).2 = db ∧
    (runAvailability (runAvailability periods submitted u).2.1
        (runAvailability periods submitted u).2.2 u).1 =
      (runAvailability periods submitted u).1 ∧
    (runAvailability periods submitted u).2 = (periods, submitted) :=
  ⟨rfl, rfl, rfl, rfl⟩

end FeedbackSystem
